import Mathlib

/-!
# Verification of `backupdb.py` (regisf/backup-mysql)

A shallow embedding of the backup/restore core of `backupdb.py`:

* the data model (rows as ordered key/value lists, mirroring Python dicts),
* JSON serialization (`save_as_json` / `load_json_file` / `user_encoder`),
  modeled at the level of the JSON value tree,
* the reconciliation step (`RestoreAction.compare_content`, `get_keys`),
* the per-row insert loop (`RestoreAction.insert_into_db`), and
* the per-table restore orchestration (`RestoreAction.process_action`),
  with the file system and the database abstracted as an oracle (`DbWorld`)
  and observable behaviour recorded as an event trace.

Python exceptions are modeled explicitly: a `dict.pop(k)` on a missing key
is a `KeyError` (the `Option` in `compare_content`), uncaught exceptions
surface as the `Option RunError` component of a trace.
-/

namespace BackupDb

/-- A `datetime.datetime` value, to the precision the program ever looks at
(`strftime('%Y-%m-%d %H:%M:%S')` uses exactly these six components). -/
structure DateTime where
  year : Nat
  month : Nat
  day : Nat
  hour : Nat
  minute : Nat
  second : Nat
deriving DecidableEq

/-- A Python value as it occurs in a row fetched from MySQL or parsed from
JSON.  Finite floats are identified by their shortest round-trip decimal
text (Python `repr`), which is exactly what `json.dumps`/`json.loads`
write and read back; float bit-level behaviour is not modeled further.
`other` stands for any value that is neither a JSON-native scalar nor a
`datetime.datetime` (e.g. `bytes`, `datetime.date`, `Decimal`). -/
inductive PyValue where
  | null
  | boolean (b : Bool)
  | intv (n : Int)
  | floatv (r : String)
  | strv (s : String)
  | datetime (d : DateTime)
  | other (tag : String)
deriving DecidableEq

abbrev FieldName := String
abbrev TableName := String

/-- A Python `dict` row: an ordered association list (Python dicts preserve
insertion order; key uniqueness is a dict invariant, not enforced here). -/
abbrev Row := List (FieldName × PyValue)

abbrev RowSet := List Row

/-- Zero-pad to two digits, as `strftime` does for `%m %d %H %M %S`. -/
def pad2 (n : Nat) : String :=
  if n < 10 then "0" ++ toString n else toString n

/-- Zero-pad to four digits for `%Y`.  (CPython's padding of small years is
platform dependent; every claim only ever compares this rendering with
itself, so the padding choice is immaterial.) -/
def pad4 (n : Nat) : String :=
  if n < 10 then "000" ++ toString n
  else if n < 100 then "00" ++ toString n
  else if n < 1000 then "0" ++ toString n
  else toString n

/-- `d.strftime('%Y-%m-%d %H:%M:%S')`. -/
def strftimeYmdHms (d : DateTime) : String :=
  pad4 d.year ++ "-" ++ pad2 d.month ++ "-" ++ pad2 d.day ++ " " ++
    pad2 d.hour ++ ":" ++ pad2 d.minute ++ ":" ++ pad2 d.second

/-- Embedding of `user_encoder` (backupdb.py lines 61-63): returns the
fixed-format text for a `datetime.datetime` and falls through — returning
Python `None` — on every other input. -/
def user_encoder : PyValue → Option String
  | PyValue.datetime d => some (strftimeYmdHms d)
  | _ => Option.none

/-- A JSON value tree node, restricted to the scalar shapes this program
produces (rows are flat). -/
inductive JValue where
  | null
  | jbool (b : Bool)
  | jint (n : Int)
  | jfloat (r : String)
  | jstr (s : String)
deriving DecidableEq

abbrev JRow := List (FieldName × JValue)
abbrev JDoc := List JRow

/-- How `json.dumps(·, default=user_encoder)` encodes one value:
JSON-native scalars map directly; for anything else `json.dumps` calls
`user_encoder` and serializes its result — the `strftime` text for a
datetime, Python `None` (hence JSON `null`) for everything else. -/
def dumpsValue (v : PyValue) : JValue :=
  match v with
  | PyValue.null => JValue.null
  | PyValue.boolean b => JValue.jbool b
  | PyValue.intv n => JValue.jint n
  | PyValue.floatv r => JValue.jfloat r
  | PyValue.strv s => JValue.jstr s
  | v =>
    match user_encoder v with
    | some s => JValue.jstr s
    | Option.none => JValue.null

/-- How `json.loads` decodes one scalar: JSON types map to their native
Python equivalents; no further coercion happens (dates stay text). -/
def loadsValue : JValue → PyValue
  | JValue.null => PyValue.null
  | JValue.jbool b => PyValue.boolean b
  | JValue.jint n => PyValue.intv n
  | JValue.jfloat r => PyValue.floatv r
  | JValue.jstr s => PyValue.strv s

/-- `BackupAction.save_as_json` (lines 131-135), at the JSON-tree level:
`json.dumps(data, default=user_encoder)` encodes each row field-by-field,
preserving row order and the insertion order of keys. -/
def save_as_json (data : RowSet) : JDoc :=
  data.map (fun row => row.map (fun kv => (kv.1, dumpsValue kv.2)))

/-- `RestoreAction.load_json_file` (lines 180-183), at the JSON-tree level:
`json.loads` decodes each row field-by-field. -/
def load_json_file (doc : JDoc) : RowSet :=
  doc.map (fun row => row.map (fun kv => (kv.1, loadsValue kv.2)))

/-- Value comparison in which timestamps compare by their fixed-format text
rendering (against other timestamps or against plain text), everything
else structurally. -/
def tsValueEq : PyValue → PyValue → Bool
  | PyValue.datetime d, PyValue.datetime e => strftimeYmdHms d == strftimeYmdHms e
  | PyValue.datetime d, PyValue.strv s => strftimeYmdHms d == s
  | PyValue.strv s, PyValue.datetime d => s == strftimeYmdHms d
  | v, w => v == w

/-- Rows equal field-by-field under `tsValueEq`, same keys, same order. -/
def tsRowEq : Row → Row → Bool
  | [], [] => true
  | kv1 :: t1, kv2 :: t2 => kv1.1 == kv2.1 && tsValueEq kv1.2 kv2.2 && tsRowEq t1 t2
  | _, _ => false

/-- RowSets equal row-by-row under `tsRowEq`. -/
def tsRowSetEq : RowSet → RowSet → Bool
  | [], [] => true
  | r1 :: t1, r2 :: t2 => tsRowEq r1 r2 && tsRowSetEq t1 t2
  | _, _ => false

/-- The supported scalar types of spec §3: null, boolean, integer,
floating-point, string, timestamp — everything except `other`. -/
def isSupportedScalar : PyValue → Bool
  | PyValue.other _ => false
  | _ => true

/-- A value the JSON encoder handles natively, without `user_encoder`. -/
def isJsonNative : PyValue → Bool
  | PyValue.null => true
  | PyValue.boolean _ => true
  | PyValue.intv _ => true
  | PyValue.floatv _ => true
  | PyValue.strv _ => true
  | _ => false

/-- `row.keys()` of a Python dict, in insertion order. -/
def keysOf (row : Row) : List FieldName :=
  row.map Prod.fst

/-- `RestoreAction.get_keys` (lines 195-198): the first row's keys, each
backquoted unless `simple`; the empty list for an empty RowSet. -/
def get_keys (content : RowSet) (simple : Bool) : List String :=
  match content with
  | [] => []
  | row :: _ => (keysOf row).map (fun key => if simple then key else "`" ++ key ++ "`")

/-- `row.pop(k)` on a Python dict, called with no default (line 210):
removes the entry when the key is present, raises `KeyError` (here:
`Option.none`) when it is absent. -/
def pyPop (row : Row) (k : FieldName) : Option Row :=
  if k ∈ keysOf row then some (row.filter (fun kv => kv.1 != k)) else Option.none

/-- The inner loop `for row in content: row.pop(rs)` of `compare_content`:
pop one field from every row in order, propagating a `KeyError`. -/
def popAll (k : FieldName) : RowSet → Option RowSet
  | [] => some []
  | row :: rows =>
    match pyPop row k with
    | Option.none => Option.none
    | some row2 =>
      match popAll k rows with
      | Option.none => Option.none
      | some rest => some (row2 :: rest)

/-- `set(keys) - set(db_structure)` of `compare_content` (line 203), as a
duplicate-free list: the first row's keys that the destination lacks. -/
def extraFields (db_structure : List FieldName) (content : RowSet) : List FieldName :=
  ((get_keys content true).filter (fun k => decide (k ∉ db_structure))).dedup

/-- `RestoreAction.compare_content` (lines 200-212) with the destination
structure (its own `self.get_table_structure(table)` call) passed in:
for each field of the first row absent from `db_structure`, pop that field
from every row; a row missing such a field raises `KeyError` (`none`). -/
def compare_content (db_structure : List FieldName) (content : RowSet) : Option RowSet :=
  (extraFields db_structure content).foldlM (fun rows k => popAll k rows) content

/-- Removing a list of keys from a row, one `filter` per key — the effect
of `compare_content`'s pops on a single row. -/
def dropKeys (ks : List FieldName) (row : Row) : Row :=
  match ks with
  | [] => row
  | k :: tl => dropKeys tl (row.filter (fun kv => kv.1 != k))

/-- The reconciliation step as the orchestrator runs it (lines 153-155):
`compare_content` followed by `get_keys` on the cleaned rows, packaging
spec §4.3's `(RowSet, field list)` result. -/
def reconcile (db_structure : List FieldName) (content : RowSet) :
    Option (RowSet × List String) :=
  (compare_content db_structure content).map (fun c => (c, get_keys c false))

/-- `list(row.values())` (line 166): the row's values in the row's own key
order. -/
def insertParams (row : Row) : List PyValue :=
  row.map Prod.snd

/-- The INSERT statement text built at lines 163-165: named (backquoted)
fields and one positional `%s` placeholder per field. -/
def buildInsertQuery (table : TableName) (fields : List String) : String :=
  "INSERT INTO " ++ table ++ " (" ++ String.intercalate "," fields ++ ") VALUES (" ++
    String.intercalate "," (List.replicate fields.length "%s") ++ ")"

/-- The driver-reported outcome of executing one row's INSERT:
success, `mysql.connector.errors.DataError`,
`mysql.connector.errors.IntegrityError`, or any other exception class. -/
inductive InsertOutcome where
  | ok
  | dataError (msg : String)
  | integrityError (msg : String)
  | fatal (msg : String)
deriving DecidableEq

/-- The external world `RestoreAction` runs against: the file system
(`os.path` checks, reading an artifact) and the destination database
(`SHOW TABLES`, `DESC`, executing an INSERT).  `load_json_file` failures
(`IOError`, malformed JSON) appear as `Except.error`. -/
structure DbWorld where
  file_exists : TableName → Bool
  table_exists : TableName → Bool
  load_json_file : TableName → Except String RowSet
  get_table_structure : TableName → List FieldName
  exec_insert : TableName → List PyValue → InsertOutcome

/-- One observable step of a restore run: log lines, database operations,
and the per-row error reports printed by `insert_into_db`. -/
inductive Event where
  | infoRestoring (t : TableName)
  | skipFileMissing (t : TableName)
  | dbShowTables (t : TableName)
  | skipTableMissing (t : TableName)
  | dbDescTable (t : TableName)
  | diffReported (t : TableName) (extra : List FieldName)
  | warnEmptyTable (t : TableName)
  | dbSetFkChecks (t : TableName)
  | dbExecInsert (t : TableName) (query : String) (values : List PyValue)
  | reportDataError (t : TableName) (firstValue : PyValue) (msg : String)
  | reportIntegrityError (t : TableName) (firstValue : PyValue) (msg : String)
deriving DecidableEq

/-- An uncaught Python exception escaping `process_action`:
an artifact read failure, the `KeyError` from `compare_content`'s pop,
the `IndexError` from `value[0]` on an empty row inside an except block,
or a non-classified insert failure. -/
inductive RunError where
  | storeError (t : TableName) (msg : String)
  | keyError (t : TableName)
  | indexError (t : TableName)
  | insertFatal (t : TableName) (msg : String)
deriving DecidableEq

/-- The `for value in values` loop of `insert_into_db` (lines 171-178):
each row's `cursor.execute(query, value)` is attempted; `DataError` and
`IntegrityError` are caught and printed with `value[0]` (an `IndexError`
if the row is empty), every other exception escapes and ends the loop. -/
def insertLoop (env : DbWorld) (t : TableName) (query : String) :
    List (List PyValue) → List Event × Option RunError
  | [] => ([], Option.none)
  | v :: vs =>
    match env.exec_insert t v with
    | InsertOutcome.ok =>
      let r := insertLoop env t query vs
      (Event.dbExecInsert t query v :: r.1, r.2)
    | InsertOutcome.dataError m =>
      match v with
      | [] => ([Event.dbExecInsert t query v], some (RunError.indexError t))
      | v0 :: _ =>
        let r := insertLoop env t query vs
        (Event.dbExecInsert t query v :: Event.reportDataError t v0 m :: r.1, r.2)
    | InsertOutcome.integrityError m =>
      match v with
      | [] => ([Event.dbExecInsert t query v], some (RunError.indexError t))
      | v0 :: _ =>
        let r := insertLoop env t query vs
        (Event.dbExecInsert t query v :: Event.reportIntegrityError t v0 m :: r.1, r.2)
    | InsertOutcome.fatal m =>
      ([Event.dbExecInsert t query v], some (RunError.insertFatal t m))

/-- `RestoreAction.insert_into_db` (lines 162-178): build the query from
the quoted field list, take each row's values in the row's own key order
(`list(row.values())`), disable foreign-key checks, then run the per-row
loop. -/
def insert_into_db (env : DbWorld) (t : TableName) (content : RowSet)
    (fields : List String) : List Event × Option RunError :=
  let values := content.map insertParams
  let r := insertLoop env t (buildInsertQuery t fields) values
  (Event.dbSetFkChecks t :: r.1, r.2)

/-- The body of `RestoreAction.process_action`'s loop for one table
(lines 140-160): log, check the artifact file, check the destination
table, load, reconcile, then insert; `Option RunError` is an uncaught
exception escaping this table's processing. -/
def processTable (env : DbWorld) (t : TableName) : List Event × Option RunError :=
  if env.file_exists t = false then
    ([Event.infoRestoring t, Event.skipFileMissing t], Option.none)
  else if env.table_exists t = false then
    ([Event.infoRestoring t, Event.dbShowTables t, Event.skipTableMissing t], Option.none)
  else
    match env.load_json_file t with
    | Except.error m =>
      ([Event.infoRestoring t, Event.dbShowTables t], some (RunError.storeError t m))
    | Except.ok content =>
      let db := env.get_table_structure t
      let extra := extraFields db content
      let preEvents := [Event.infoRestoring t, Event.dbShowTables t, Event.dbDescTable t] ++
        (if extra.isEmpty then [] else [Event.diffReported t extra])
      match compare_content db content with
      | Option.none => (preEvents, some (RunError.keyError t))
      | some cleaned =>
        let fields := get_keys cleaned false
        if fields.isEmpty then
          (preEvents ++ [Event.warnEmptyTable t], Option.none)
        else
          let r := insert_into_db env t cleaned fields
          (preEvents ++ r.1, r.2)

/-- `RestoreAction.process_action` (lines 139-160): process the configured
tables in order; an uncaught exception from one table stops the whole
run (there is no per-table `try`): later tables are never reached. -/
def process_action (env : DbWorld) : List TableName → List Event × Option RunError
  | [] => ([], Option.none)
  | t :: ts =>
    let r := processTable env t
    match r.2 with
    | some e => (r.1, some e)
    | Option.none => (r.1 ++ (process_action env ts).1, (process_action env ts).2)

/-- The events `insertLoop` produces for one row when its outcome is not
fatal: the execute, then the report printed by the matching handler. -/
def reportEvents (env : DbWorld) (t : TableName) (v : List PyValue) : List Event :=
  match v, env.exec_insert t v with
  | v0 :: _, InsertOutcome.dataError m => [Event.reportDataError t v0 m]
  | v0 :: _, InsertOutcome.integrityError m => [Event.reportIntegrityError t v0 m]
  | _, _ => []

/-- The full trace of `insertLoop` over rows none of which is fatal. -/
def okTrace (env : DbWorld) (t : TableName) (query : String) :
    List (List PyValue) → List Event
  | [] => []
  | v :: vs => Event.dbExecInsert t query v :: (reportEvents env t v ++ okTrace env t query vs)

/-- Outcomes the `except` clauses of `insert_into_db` catch (plus success):
everything but an unclassified exception. -/
def nonFatalOutcome : InsertOutcome → Bool
  | InsertOutcome.fatal _ => false
  | _ => true

/-- Concatenated traces of a list of tables, each of which completed
without an uncaught exception. -/
def tracesOf (env : DbWorld) : List TableName → List Event
  | [] => []
  | u :: us => (processTable env u).1 ++ tracesOf env us

/-- The table an event belongs to. -/
def eventTable : Event → TableName
  | Event.infoRestoring t => t
  | Event.skipFileMissing t => t
  | Event.dbShowTables t => t
  | Event.skipTableMissing t => t
  | Event.dbDescTable t => t
  | Event.diffReported t _ => t
  | Event.warnEmptyTable t => t
  | Event.dbSetFkChecks t => t
  | Event.dbExecInsert t _ _ => t
  | Event.reportDataError t _ _ => t
  | Event.reportIntegrityError t _ _ => t

/-- Events that touch the destination database connection. -/
def isDbOp : Event → Bool
  | Event.dbShowTables _ => true
  | Event.dbDescTable _ => true
  | Event.dbSetFkChecks _ => true
  | Event.dbExecInsert _ _ _ => true
  | _ => false

/-- Positional alignment of a row with a field list: same arity, and the
parameter at each position equals the value the row associates with the
column named at that position. -/
def aligned (fields : List FieldName) (row : Row) : Bool :=
  fields.length == row.length &&
    (fields.zip (insertParams row)).all (fun fv => row.lookup fv.1 == some fv.2)

/-- A concrete world in which every artifact read fails. -/
def envLoadFail : DbWorld where
  file_exists := fun _ => true
  table_exists := fun _ => true
  load_json_file := fun _ => Except.error "io"
  get_table_structure := fun _ => []
  exec_insert := fun _ _ => InsertOutcome.ok

/-- A concrete world whose insert outcomes depend on the first value:
`1` hits a DataError, `2` an IntegrityError, everything else succeeds. -/
def envRowErrors : DbWorld where
  file_exists := fun _ => true
  table_exists := fun _ => true
  load_json_file := fun _ => Except.ok []
  get_table_structure := fun _ => ["a"]
  exec_insert := fun _ v =>
    match v with
    | PyValue.intv 1 :: _ => InsertOutcome.dataError "d"
    | PyValue.intv 2 :: _ => InsertOutcome.integrityError "i"
    | _ => InsertOutcome.ok

/-- A concrete world in which no artifact file exists. -/
def envNoFiles : DbWorld where
  file_exists := fun _ => false
  table_exists := fun _ => true
  load_json_file := fun _ => Except.ok []
  get_table_structure := fun _ => ["a"]
  exec_insert := fun _ _ => InsertOutcome.ok

/-! ## Reconciliation: characterization lemmas -/

theorem mem_keysOf_filter_ne (row : Row) (k kp : FieldName) (h : kp ≠ k) :
    kp ∈ keysOf (row.filter (fun kv => kv.1 != k)) ↔ kp ∈ keysOf row := by
  simp only [keysOf, List.mem_map, List.mem_filter, bne_iff_ne, ne_eq]
  constructor
  · rintro ⟨kv, ⟨hmem, _⟩, rfl⟩
    exact ⟨kv, hmem, rfl⟩
  · rintro ⟨kv, hmem, rfl⟩
    exact ⟨kv, ⟨hmem, fun hk => h hk⟩, rfl⟩

theorem not_mem_keysOf_filter_self (row : Row) (k : FieldName) :
    k ∉ keysOf (row.filter (fun kv => kv.1 != k)) := by
  simp only [keysOf, List.mem_map, List.mem_filter, bne_iff_ne, ne_eq]
  rintro ⟨kv, ⟨_, hne⟩, rfl⟩
  exact hne rfl

theorem mem_keysOf_dropKeys (ks : List FieldName) (row : Row) (kp : FieldName) :
    kp ∈ keysOf (dropKeys ks row) ↔ kp ∈ keysOf row ∧ kp ∉ ks := by
  induction ks generalizing row with
  | nil => simp [dropKeys]
  | cons k tl ih =>
    rw [dropKeys, ih]
    by_cases hkk : kp = k
    · subst hkk
      simp [not_mem_keysOf_filter_self]
    · rw [mem_keysOf_filter_ne _ _ _ hkk]
      simp [List.mem_cons, hkk]

theorem dropKeys_sublist (ks : List FieldName) (row : Row) :
    (dropKeys ks row).Sublist row := by
  induction ks generalizing row with
  | nil => exact List.Sublist.refl _
  | cons k tl ih => exact (ih _).trans (List.filter_sublist _)

theorem popAll_char (k : FieldName) (rows : RowSet) :
    popAll k rows =
      if ∀ row ∈ rows, k ∈ keysOf row then
        some (rows.map (fun row => row.filter (fun kv => kv.1 != k)))
      else Option.none := by
  induction rows with
  | nil => simp [popAll]
  | cons r rs ih =>
    by_cases hr : k ∈ keysOf r
    · by_cases hrs : ∀ row ∈ rs, k ∈ keysOf row
      · simp only [popAll, pyPop, if_pos hr, ih, if_pos hrs]
        rw [if_pos (by exact List.forall_mem_cons.mpr ⟨hr, hrs⟩)]
        rfl
      · simp only [popAll, pyPop, if_pos hr, ih, if_neg hrs]
        rw [if_neg (by simpa [List.forall_mem_cons, hr] using hrs)]
    · simp only [popAll, pyPop, if_neg hr]
      rw [if_neg (by simp [List.forall_mem_cons, hr])]

theorem popFold_char (ks : List FieldName) :
    ks.Nodup → ∀ rows : RowSet,
      ks.foldlM (fun acc k => popAll k acc) rows =
        if ∀ row ∈ rows, ∀ k ∈ ks, k ∈ keysOf row then
          some (rows.map (dropKeys ks))
        else Option.none := by
  induction ks with
  | nil =>
    intro _ rows
    simp [dropKeys, List.map_id]
  | cons k tl ih =>
    intro hnd rows
    obtain ⟨hk, htl⟩ := List.nodup_cons.mp hnd
    rw [List.foldlM_cons, popAll_char]
    by_cases h1 : ∀ row ∈ rows, k ∈ keysOf row
    · rw [if_pos h1]
      show tl.foldlM (fun acc k => popAll k acc) _ = _
      rw [ih htl]
      have hmap : (rows.map fun row => row.filter (fun kv => kv.1 != k)).map (dropKeys tl) =
          rows.map (dropKeys (k :: tl)) := by
        rw [List.map_map]
        rfl
      have hcond : (∀ row ∈ rows.map fun row => row.filter (fun kv => kv.1 != k),
            ∀ kp ∈ tl, kp ∈ keysOf row) ↔
          (∀ row ∈ rows, ∀ kp ∈ k :: tl, kp ∈ keysOf row) := by
        constructor
        · intro hc row hrow kp hkp
          rcases List.mem_cons.mp hkp with rfl | hkp
          · exact h1 row hrow
          · have hne : kp ≠ k := fun hkk => hk (hkk ▸ hkp)
            have := hc _ (List.mem_map_of_mem _ hrow) kp hkp
            exact (mem_keysOf_filter_ne row k kp hne).mp this
        · intro hc row hrow kp hkp
          rcases List.mem_map.mp hrow with ⟨row0, hrow0, rfl⟩
          have hne : kp ≠ k := fun hkk => hk (hkk ▸ hkp)
          exact (mem_keysOf_filter_ne row0 k kp hne).mpr
            (hc row0 hrow0 kp (List.mem_cons_of_mem _ hkp))
      rw [hmap, if_congr hcond rfl rfl]
    · rw [if_neg h1]
      have hC : ¬ ∀ row ∈ rows, ∀ kp ∈ k :: tl, kp ∈ keysOf row := by
        intro hc
        exact h1 fun row hrow => hc row hrow k (List.mem_cons_self _ _)
      rw [if_neg hC]
      rfl

theorem compare_content_char (db : List FieldName) (content : RowSet) :
    compare_content db content =
      if ∀ row ∈ content, ∀ k ∈ extraFields db content, k ∈ keysOf row then
        some (content.map (dropKeys (extraFields db content)))
      else Option.none :=
  popFold_char _ (List.nodup_dedup _) _

theorem keys_after_reconcile (db : List FieldName) (content cleaned : RowSet)
    (h : compare_content db content = some cleaned) :
    ∀ k ∈ get_keys cleaned true, k ∈ db := by
  rw [compare_content_char] at h
  split at h
  next hall =>
    rw [Option.some_inj] at h
    subst h
    cases content with
    | nil => simp [get_keys]
    | cons r rs =>
      intro k hk
      simp only [List.map_cons, get_keys, if_true, List.map_id_fun, id] at hk
      have hk : k ∈ keysOf (dropKeys (extraFields db (r :: rs)) r) := by
        simpa [keysOf] using hk
      obtain ⟨hkr, hkne⟩ := (mem_keysOf_dropKeys _ _ _).mp hk
      by_contra hkdb
      apply hkne
      have hkkeys : k ∈ get_keys (r :: rs) true := by
        simpa [get_keys, keysOf] using hkr
      exact List.mem_dedup.mpr (List.mem_filter.mpr ⟨hkkeys, by simpa using hkdb⟩)
  next => exact absurd h (by simp)

/-! ## Claims C1, C2, C6, C8: the reconciliation step -/

/-- C1: for every RowSet and destination column set, whenever
`compare_content` yields a result (i.e. reconciliation completes), the
effective field set of the result — the key set of its reconciled first
row — is a subset of the destination column set, before any insert is
attempted. -/
theorem reconciled_field_set_subset (db : List FieldName) (content cleaned : RowSet)
    (h : compare_content db content = some cleaned) :
    ∀ k ∈ get_keys cleaned true, k ∈ db :=
  keys_after_reconcile db content cleaned h

theorem reconciled_field_set_subset_witness :
    compare_content ["a"] [[("a", PyValue.intv 1), ("b", PyValue.intv 2)]] =
        some [[("a", PyValue.intv 1)]] ∧
      ∀ k ∈ get_keys [[("a", PyValue.intv 1)]] true, k ∈ ["a"] :=
  ⟨by decide,
   reconciled_field_set_subset ["a"] [[("a", PyValue.intv 1), ("b", PyValue.intv 2)]]
     [[("a", PyValue.intv 1)]] (by decide)⟩

/-- C2, counterexample: with destination columns `{a}`, the first row
`{a, b}` makes `b` extra, and the second row `{a}` lacks `b`; the claim
says the removal step leaves that row unchanged and never fails, but
`row.pop("b")` raises `KeyError`, so reconciliation fails (`none`). -/
theorem removal_on_missing_field_cex :
    extraFields ["a"] [[("a", PyValue.intv 1), ("b", PyValue.intv 2)], [("a", PyValue.intv 3)]] =
        ["b"] ∧
      "b" ∉ keysOf [("a", PyValue.intv 3)] ∧
      compare_content ["a"]
          [[("a", PyValue.intv 1), ("b", PyValue.intv 2)], [("a", PyValue.intv 3)]] =
        Option.none := by
  refine ⟨by decide, by decide, by decide⟩

/-- C2, amended: for every field in `extra`, reconciliation removes that
field from every row — but when some row lacks one of the extra fields,
`row.pop` raises `KeyError` and reconciliation fails instead of leaving
that row unchanged.  `compare_content` succeeds, dropping every extra
field from every row, exactly when every row carries every extra field. -/
theorem removal_drops_extra_or_keyerror (db : List FieldName) (content : RowSet) :
    compare_content db content =
      if ∀ row ∈ content, ∀ k ∈ extraFields db content, k ∈ keysOf row then
        some (content.map (dropKeys (extraFields db content)))
      else Option.none :=
  compare_content_char db content

/-- C6: reconciliation is idempotent — feeding `compare_content`'s result
back through reconciliation against the same column set returns the very
same cleaned RowSet and field list. -/
theorem reconcile_idempotent (db : List FieldName) (content : RowSet) :
    (compare_content db content).bind (fun c => reconcile db c) = reconcile db content := by
  cases h : compare_content db content with
  | none => simp [reconcile, h]
  | some cleaned =>
    have hsub := keys_after_reconcile db content cleaned h
    have hextra : extraFields db cleaned = [] := by
      rw [extraFields, List.dedup_eq_nil, List.filter_eq_nil_iff]
      intro k hk
      simpa using hsub k hk
    have hfix : compare_content db cleaned = some cleaned := by
      rw [compare_content, hextra]
      rfl
    simp [reconcile, h, hfix]

/-- C8: reconciliation preserves row structure — when `compare_content`
succeeds, the result has exactly as many rows as the input, in the same
order, and each output row is a subsequence of the corresponding input
row (fields removed in place, nothing added or reordered). -/
theorem reconcile_preserves_row_structure (db : List FieldName) (content cleaned : RowSet)
    (h : compare_content db content = some cleaned) :
    cleaned.length = content.length ∧
      ∀ (i : Nat) (h1 : i < cleaned.length) (h2 : i < content.length),
        (cleaned.get ⟨i, h1⟩).Sublist (content.get ⟨i, h2⟩) := by
  rw [compare_content_char] at h
  split at h
  · rw [Option.some_inj] at h
    subst h
    refine ⟨List.length_map _ _, ?_⟩
    intro i h1 h2
    simp only [List.get_eq_getElem, List.getElem_map]
    exact dropKeys_sublist _ _
  · exact absurd h (by simp)

theorem reconcile_preserves_row_structure_witness :
    compare_content ["a"] [[("a", PyValue.intv 1), ("b", PyValue.intv 2)]] =
        some [[("a", PyValue.intv 1)]] ∧
      ([[("a", PyValue.intv 1)]] : RowSet).length =
        ([[("a", PyValue.intv 1), ("b", PyValue.intv 2)]] : RowSet).length ∧
      List.Sublist [("a", PyValue.intv 1)] [("a", PyValue.intv 1), ("b", PyValue.intv 2)] :=
  ⟨by decide,
   (reconcile_preserves_row_structure ["a"] [[("a", PyValue.intv 1), ("b", PyValue.intv 2)]]
     [[("a", PyValue.intv 1)]] (by decide)).1,
   by
     have h := (reconcile_preserves_row_structure ["a"]
       [[("a", PyValue.intv 1), ("b", PyValue.intv 2)]]
       [[("a", PyValue.intv 1)]] (by decide)).2 0 (by decide) (by decide)
     simp only [List.get_eq_getElem] at h
     exact h⟩

/-! ## Claims C5, C9: serialization -/

theorem tsValueEq_roundtrip (v : PyValue) (h : isSupportedScalar v = true) :
    tsValueEq (loadsValue (dumpsValue v)) v = true := by
  cases v <;> simp [dumpsValue, loadsValue, tsValueEq, user_encoder, isSupportedScalar] at h ⊢

theorem tsRowEq_roundtrip (row : Row) (h : ∀ kv ∈ row, isSupportedScalar kv.2 = true) :
    tsRowEq (row.map (fun kv => (kv.1, loadsValue (dumpsValue kv.2)))) row = true := by
  induction row with
  | nil => rfl
  | cons kv tl ih =>
    simp only [List.map_cons, tsRowEq, Bool.and_eq_true]
    refine ⟨⟨by simp, tsValueEq_roundtrip _ (h kv (by simp))⟩, ?_⟩
    exact ih fun kv2 hkv2 => h kv2 (by simp [hkv2])

/-- C5: reading a table's artifact right after writing a RowSet to it
yields the same RowSet, field for field and row for row, for any RowSet
built from the supported scalar types — where a written timestamp reads
back as its fixed-format text and is compared by that rendering. -/
theorem json_round_trip (rows : RowSet)
    (h : ∀ row ∈ rows, ∀ kv ∈ row, isSupportedScalar kv.2 = true) :
    tsRowSetEq (load_json_file (save_as_json rows)) rows = true := by
  induction rows with
  | nil => rfl
  | cons r tl ih =>
    simp only [save_as_json, load_json_file, List.map_cons, tsRowSetEq, Bool.and_eq_true] at ih ⊢
    constructor
    · have hcomp : (r.map fun kv => (kv.1, dumpsValue kv.2)).map
          (fun kv => (kv.1, loadsValue kv.2)) =
          r.map fun kv => (kv.1, loadsValue (dumpsValue kv.2)) := by
        rw [List.map_map]
        rfl
      rw [hcomp]
      exact tsRowEq_roundtrip r (h r (by simp))
    · exact ih fun row hrow kv hkv => h row (by simp [hrow]) kv hkv

theorem json_round_trip_witness :
    (∀ row ∈ ([[("d", PyValue.datetime ⟨2020, 1, 2, 3, 4, 5⟩), ("n", PyValue.intv 7),
        ("s", PyValue.strv "x"), ("b", PyValue.boolean true), ("z", PyValue.null),
        ("f", PyValue.floatv "1.5")]] : RowSet),
      ∀ kv ∈ row, isSupportedScalar kv.2 = true) ∧
      tsRowSetEq
        (load_json_file (save_as_json
          [[("d", PyValue.datetime ⟨2020, 1, 2, 3, 4, 5⟩), ("n", PyValue.intv 7),
            ("s", PyValue.strv "x"), ("b", PyValue.boolean true), ("z", PyValue.null),
            ("f", PyValue.floatv "1.5")]]))
        [[("d", PyValue.datetime ⟨2020, 1, 2, 3, 4, 5⟩), ("n", PyValue.intv 7),
          ("s", PyValue.strv "x"), ("b", PyValue.boolean true), ("z", PyValue.null),
          ("f", PyValue.floatv "1.5")]] = true :=
  ⟨by decide,
   json_round_trip
     [[("d", PyValue.datetime ⟨2020, 1, 2, 3, 4, 5⟩), ("n", PyValue.intv 7),
       ("s", PyValue.strv "x"), ("b", PyValue.boolean true), ("z", PyValue.null),
       ("f", PyValue.floatv "1.5")]] (by decide)⟩

/-- C9: `user_encoder` returns the fixed-format text for a
`datetime.datetime` and Python `None` for every other unsupported value,
so `json.dumps` renders a timestamp as that text and silently encodes any
other non-native value as JSON `null` — serialization never fails, the
artifact just carries `null` in that position. -/
theorem unsupported_value_encoded_null (d : DateTime) (tag : String) :
    user_encoder (PyValue.datetime d) = some (strftimeYmdHms d) ∧
      dumpsValue (PyValue.datetime d) = JValue.jstr (strftimeYmdHms d) ∧
      user_encoder (PyValue.other tag) = Option.none ∧
      dumpsValue (PyValue.other tag) = JValue.null ∧
      save_as_json [[("x", PyValue.other tag)]] = [[("x", JValue.null)]] :=
  ⟨rfl, rfl, rfl, rfl, rfl⟩

/-! ## Orchestrator: helper lemmas -/

theorem process_action_cons_error (env : DbWorld) (t : TableName) (ts : List TableName)
    (e : RunError) (h : (processTable env t).2 = some e) :
    process_action env (t :: ts) = ((processTable env t).1, some e) := by
  simp only [process_action, h]

theorem process_action_cons_ok (env : DbWorld) (t : TableName) (ts : List TableName)
    (h : (processTable env t).2 = Option.none) :
    process_action env (t :: ts) =
      ((processTable env t).1 ++ (process_action env ts).1, (process_action env ts).2) := by
  simp only [process_action, h]

theorem process_action_append_traces (env : DbWorld) (pre : List TableName)
    (hpre : ∀ u ∈ pre, (processTable env u).2 = Option.none) (rest : List TableName) :
    process_action env (pre ++ rest) =
      (tracesOf env pre ++ (process_action env rest).1, (process_action env rest).2) := by
  induction pre with
  | nil => simp [tracesOf]
  | cons u us ih =>
    have hu := hpre u (List.mem_cons_self _ _)
    rw [List.cons_append, process_action_cons_ok env u _ hu,
      ih fun x hx => hpre x (List.mem_cons_of_mem _ hx)]
    simp [tracesOf, List.append_assoc]

theorem insertLoop_event_table (env : DbWorld) (t : TableName) (q : String) :
    ∀ (vs : List (List PyValue)), ∀ e ∈ (insertLoop env t q vs).1, eventTable e = t := by
  intro vs
  induction vs with
  | nil => simp [insertLoop]
  | cons v tl ih =>
    intro e he
    simp only [insertLoop] at he
    cases ho : env.exec_insert t v with
    | ok =>
      rw [ho] at he
      simp only [List.mem_cons] at he
      rcases he with rfl | he
      · rfl
      · exact ih e he
    | dataError m =>
      rw [ho] at he
      cases v with
      | nil =>
        simp only [List.mem_cons, List.not_mem_nil, or_false] at he
        subst he
        rfl
      | cons v0 vtl =>
        simp only [List.mem_cons] at he
        rcases he with rfl | rfl | he
        · rfl
        · rfl
        · exact ih e he
    | integrityError m =>
      rw [ho] at he
      cases v with
      | nil =>
        simp only [List.mem_cons, List.not_mem_nil, or_false] at he
        subst he
        rfl
      | cons v0 vtl =>
        simp only [List.mem_cons] at he
        rcases he with rfl | rfl | he
        · rfl
        · rfl
        · exact ih e he
    | fatal m =>
      rw [ho] at he
      simp only [List.mem_cons, List.not_mem_nil, or_false] at he
      subst he
      rfl

theorem eventTable_of_mem_diffOpt (u : TableName) (x : List FieldName) (b : Bool) (e : Event)
    (he : e ∈ (if b then ([] : List Event) else [Event.diffReported u x])) :
    eventTable e = u := by
  cases b with
  | false =>
    simp only [if_neg Bool.false_ne_true, List.mem_cons, List.not_mem_nil, or_false] at he
    rw [he]
    rfl
  | true => simp at he

theorem eventTable_of_mem_pre (u : TableName) (x : List FieldName) (b : Bool)
    (e : Event)
    (he : e ∈ [Event.infoRestoring u, Event.dbShowTables u, Event.dbDescTable u] ++
      (if b then ([] : List Event) else [Event.diffReported u x])) :
    eventTable e = u := by
  rcases List.mem_append.mp he with h | h
  · simp only [List.mem_cons, List.not_mem_nil, or_false] at h
    rcases h with rfl | rfl | rfl <;> rfl
  · exact eventTable_of_mem_diffOpt u x b e h

theorem processTable_event_table (env : DbWorld) (u : TableName) :
    ∀ e ∈ (processTable env u).1, eventTable e = u := by
  intro e he
  by_cases hf : env.file_exists u = false
  · simp only [processTable, if_pos hf, List.mem_cons, List.not_mem_nil, or_false] at he
    rcases he with rfl | rfl <;> rfl
  · by_cases ht : env.table_exists u = false
    · simp only [processTable, if_neg hf, if_pos ht, List.mem_cons, List.not_mem_nil,
        or_false] at he
      rcases he with rfl | rfl | rfl <;> rfl
    · cases hl : env.load_json_file u with
      | error m =>
        simp only [processTable, if_neg hf, if_neg ht, hl, List.mem_cons, List.not_mem_nil,
          or_false] at he
        rcases he with rfl | rfl <;> rfl
      | ok content =>
        cases hc : compare_content (env.get_table_structure u) content with
        | none =>
          have hev : (processTable env u).1 =
              [Event.infoRestoring u, Event.dbShowTables u, Event.dbDescTable u] ++
                (if (extraFields (env.get_table_structure u) content).isEmpty
                 then ([] : List Event)
                 else [Event.diffReported u (extraFields (env.get_table_structure u) content)]) := by
            simp only [processTable, if_neg hf, if_neg ht, hl, hc]
          rw [hev] at he
          exact eventTable_of_mem_pre u _ _ e he
        | some cleaned =>
          by_cases hfi : (get_keys cleaned false).isEmpty
          · have hev : (processTable env u).1 =
                ([Event.infoRestoring u, Event.dbShowTables u, Event.dbDescTable u] ++
                  (if (extraFields (env.get_table_structure u) content).isEmpty
                   then ([] : List Event)
                   else [Event.diffReported u
                     (extraFields (env.get_table_structure u) content)])) ++
                  [Event.warnEmptyTable u] := by
              simp only [processTable, if_neg hf, if_neg ht, hl, hc, if_pos hfi]
            rw [hev] at he
            rcases List.mem_append.mp he with h | h
            · exact eventTable_of_mem_pre u _ _ e h
            · simp only [List.mem_cons, List.not_mem_nil, or_false] at h
              rw [h]
              rfl
          · have hev : (processTable env u).1 =
                ([Event.infoRestoring u, Event.dbShowTables u, Event.dbDescTable u] ++
                  (if (extraFields (env.get_table_structure u) content).isEmpty
                   then ([] : List Event)
                   else [Event.diffReported u
                     (extraFields (env.get_table_structure u) content)])) ++
                  (Event.dbSetFkChecks u ::
                    (insertLoop env u (buildInsertQuery u (get_keys cleaned false))
                      (cleaned.map insertParams)).1) := by
              simp only [processTable, if_neg hf, if_neg ht, hl, hc, if_neg hfi, insert_into_db]
            rw [hev] at he
            rcases List.mem_append.mp he with h | h
            · exact eventTable_of_mem_pre u _ _ e h
            · rcases List.mem_cons.mp h with rfl | h
              · rfl
              · exact insertLoop_event_table env u _ _ e h

theorem processTable_skipfile_no_dbop (env : DbWorld) (t u : TableName)
    (h : env.file_exists t = false) (e : Event) (he : e ∈ (processTable env u).1)
    (hdb : isDbOp e = true) : eventTable e ≠ t := by
  intro het
  have heu := processTable_event_table env u e he
  have hut : u = t := by rw [← heu, het]
  subst hut
  rw [show processTable env u = ([Event.infoRestoring u, Event.skipFileMissing u], Option.none)
    from by simp [processTable, h]] at he
  simp only [List.mem_cons, List.not_mem_nil, or_false] at he
  rcases he with rfl | rfl <;> simp [isDbOp] at hdb

theorem insertLoop_all_nonfatal (env : DbWorld) (t : TableName) (q : String) :
    ∀ (values : List (List PyValue)), (∀ v ∈ values, v ≠ ([] : List PyValue)) →
      (∀ v ∈ values, nonFatalOutcome (env.exec_insert t v) = true) →
      insertLoop env t q values = (okTrace env t q values, Option.none) := by
  intro values
  induction values with
  | nil => intro _ _; rfl
  | cons v vs ih =>
    intro hne hnf
    have hnf0 := hnf v (List.mem_cons_self _ _)
    cases v with
    | nil => exact absurd rfl (hne [] (List.mem_cons_self _ _))
    | cons v0 vtl =>
      have ihr := ih (fun u hu => hne u (List.mem_cons_of_mem _ hu))
        (fun u hu => hnf u (List.mem_cons_of_mem _ hu))
      cases ho : env.exec_insert t (v0 :: vtl) with
      | ok => simp [insertLoop, okTrace, reportEvents, ho, ihr]
      | dataError m => simp [insertLoop, okTrace, reportEvents, ho, ihr]
      | integrityError m => simp [insertLoop, okTrace, reportEvents, ho, ihr]
      | fatal m =>
        rw [ho] at hnf0
        simp [nonFatalOutcome] at hnf0

theorem insertLoop_fatal_aborts (env : DbWorld) (t : TableName) (q : String) :
    ∀ (pre : List (List PyValue)) (v : List PyValue) (post : List (List PyValue)) (m : String),
      (∀ u ∈ pre, u ≠ ([] : List PyValue)) →
      (∀ u ∈ pre, nonFatalOutcome (env.exec_insert t u) = true) →
      env.exec_insert t v = InsertOutcome.fatal m →
      insertLoop env t q (pre ++ v :: post) =
        (okTrace env t q pre ++ [Event.dbExecInsert t q v], some (RunError.insertFatal t m)) := by
  intro pre
  induction pre with
  | nil =>
    intro v post m _ _ hv
    simp [insertLoop, hv, okTrace]
  | cons u us ih =>
    intro v post m hne hnf hv
    cases u with
    | nil => exact absurd rfl (hne [] (List.mem_cons_self _ _))
    | cons u0 utl =>
      have ihr := ih v post m (fun x hx => hne x (List.mem_cons_of_mem _ hx))
        (fun x hx => hnf x (List.mem_cons_of_mem _ hx)) hv
      have hnf0 := hnf (u0 :: utl) (List.mem_cons_self _ _)
      cases ho : env.exec_insert t (u0 :: utl) with
      | ok => simp [insertLoop, okTrace, reportEvents, ho, ihr]
      | dataError m2 => simp [insertLoop, okTrace, reportEvents, ho, ihr]
      | integrityError m2 => simp [insertLoop, okTrace, reportEvents, ho, ihr]
      | fatal m2 =>
        rw [ho] at hnf0
        simp [nonFatalOutcome] at hnf0

theorem lookup_self (row : Row) (hnd : (keysOf row).Nodup) :
    ∀ kv ∈ row, row.lookup kv.1 = some kv.2 := by
  induction row with
  | nil => simp
  | cons kv0 tl ih =>
    obtain ⟨k0, b0⟩ := kv0
    intro kv hkv
    obtain ⟨k1, b1⟩ := kv
    have hnd2 : (k0 :: keysOf tl).Nodup := hnd
    rcases List.mem_cons.mp hkv with heq | hkv2
    · rw [Prod.mk.injEq] at heq
      obtain ⟨rfl, rfl⟩ := heq
      simp [List.lookup]
    · have hk0 : (k0 : String) ∉ keysOf tl := (List.nodup_cons.mp hnd2).1
      have hne : (k1 == k0) = false := by
        apply beq_eq_false_iff_ne.mpr
        intro hkk
        apply hk0
        rw [← hkk]
        exact List.mem_map_of_mem Prod.fst hkv2
      rw [List.lookup, hne]
      exact ih (List.nodup_cons.mp hnd2).2 ⟨k1, b1⟩ hkv2

theorem aligned_of_key_order (row : Row) (hnd : (keysOf row).Nodup) :
    aligned (keysOf row) row = true := by
  rw [aligned, Bool.and_eq_true]
  constructor
  · simp [keysOf, insertParams]
  · rw [List.all_eq_true]
    intro fv hfv
    rw [keysOf, insertParams, List.zip_map'] at hfv
    rcases List.mem_map.mp hfv with ⟨kv, hkv, rfl⟩
    simp [lookup_self row hnd kv hkv]

/-! ## Claims C3, C4, C7, C10: the restore orchestration -/

/-- C3: in the per-row insert loop, a row failing with `DataError` or
`IntegrityError` is reported — the report event carries the row's first
value (`value[0]`) and the driver message — and the loop continues with
the next row (first conjunct: with no unclassified failure, every row is
attempted and the loop finishes without error, producing exactly the
execute/report trace).  A row failing with any other class stops the loop
right there (second conjunct), and an error escaping a table's
processing ends the whole run (third conjunct: `process_action` stops at
that table). -/
theorem row_errors_recovered_others_fatal (env : DbWorld) (t : TableName) (q : String)
    (values : List (List PyValue)) (hne : ∀ v ∈ values, v ≠ ([] : List PyValue)) :
    ((∀ v ∈ values, nonFatalOutcome (env.exec_insert t v) = true) →
        insertLoop env t q values = (okTrace env t q values, Option.none)) ∧
      (∀ pre v post m, values = pre ++ v :: post →
        (∀ u ∈ pre, nonFatalOutcome (env.exec_insert t u) = true) →
        env.exec_insert t v = InsertOutcome.fatal m →
        insertLoop env t q values =
          (okTrace env t q pre ++ [Event.dbExecInsert t q v],
            some (RunError.insertFatal t m))) ∧
      (∀ (t2 : TableName) (e : RunError) (ts : List TableName),
        (processTable env t2).2 = some e →
        process_action env (t2 :: ts) = ((processTable env t2).1, some e)) := by
  refine ⟨insertLoop_all_nonfatal env t q values hne, ?_, ?_⟩
  · rintro pre v post m rfl hnf hv
    exact insertLoop_fatal_aborts env t q pre v post m
      (fun u hu => hne u (List.mem_append_left _ hu)) hnf hv
  · intro t2 e ts h
    exact process_action_cons_error env t2 ts e h

theorem row_errors_recovered_witness :
    (∀ v ∈ ([[PyValue.intv 1], [PyValue.intv 2], [PyValue.intv 3]] : List (List PyValue)),
        v ≠ ([] : List PyValue)) ∧
      insertLoop envRowErrors "t" "q" [[PyValue.intv 1], [PyValue.intv 2], [PyValue.intv 3]] =
        ([Event.dbExecInsert "t" "q" [PyValue.intv 1],
          Event.reportDataError "t" (PyValue.intv 1) "d",
          Event.dbExecInsert "t" "q" [PyValue.intv 2],
          Event.reportIntegrityError "t" (PyValue.intv 2) "i",
          Event.dbExecInsert "t" "q" [PyValue.intv 3]], Option.none) :=
  ⟨by decide, by
    have h := (row_errors_recovered_others_fatal envRowErrors "t" "q"
      [[PyValue.intv 1], [PyValue.intv 2], [PyValue.intv 3]] (by decide)).1 (by decide)
    rw [h]
    rfl⟩

/-- C4, counterexample: with two configured tables and an artifact-read
failure (`StoreError`) on the first, the claim says the orchestrator
aborts only that table and continues with `"b"`; in the code the
exception from `load_json_file` is uncaught, so the whole run stops with
the error and table `"b"` is never reached (not even its log line). -/
theorem load_error_aborts_run_cex :
    (process_action envLoadFail ["a", "b"]).2 = some (RunError.storeError "a" "io") ∧
      Event.infoRestoring "b" ∉ (process_action envLoadFail ["a", "b"]).1 := by
  refine ⟨by decide, by decide⟩

/-- C4, amended: a `StoreError` raised while loading a table's artifact is
fatal to the whole run, not just to that table — `process_action` has no
per-table handler, so the error propagates: the run's trace ends with
that table's last events and every later configured table goes
unprocessed. -/
theorem load_error_aborts_run (env : DbWorld) (pre : List TableName) (t : TableName)
    (ts : List TableName) (m : String)
    (hpre : ∀ u ∈ pre, (processTable env u).2 = Option.none)
    (hf : env.file_exists t = true) (ht : env.table_exists t = true)
    (hl : env.load_json_file t = Except.error m) :
    processTable env t =
        ([Event.infoRestoring t, Event.dbShowTables t], some (RunError.storeError t m)) ∧
      process_action env (pre ++ t :: ts) =
        (tracesOf env pre ++ [Event.infoRestoring t, Event.dbShowTables t],
          some (RunError.storeError t m)) := by
  have hpt : processTable env t =
      ([Event.infoRestoring t, Event.dbShowTables t], some (RunError.storeError t m)) := by
    simp [processTable, hf, ht, hl]
  refine ⟨hpt, ?_⟩
  rw [process_action_append_traces env pre hpre (t :: ts),
    process_action_cons_error env t ts _ (by rw [hpt]), hpt]

theorem load_error_aborts_run_witness :
    envLoadFail.file_exists "a" = true ∧ envLoadFail.table_exists "a" = true ∧
      envLoadFail.load_json_file "a" = Except.error "io" ∧
      process_action envLoadFail (([] : List TableName) ++ "a" :: ["b"]) =
        (tracesOf envLoadFail [] ++ [Event.infoRestoring "a", Event.dbShowTables "a"],
          some (RunError.storeError "a" "io")) :=
  ⟨rfl, rfl, rfl,
   (load_error_aborts_run envLoadFail [] "a" ["b"] "io" (by simp) rfl rfl rfl).2⟩

/-- C7: when the artifact file for a table is absent, that table's
processing is exactly the log line and the skip (no error, so the run
proceeds to the next configured table), and the whole run's trace
contains no database operation for that table — the file-existence check
strictly precedes any destination-connection access. -/
theorem skip_missing_file (env : DbWorld) (ts : List TableName) (t : TableName)
    (h : env.file_exists t = false) :
    processTable env t = ([Event.infoRestoring t, Event.skipFileMissing t], Option.none) ∧
      ∀ e ∈ (process_action env ts).1, isDbOp e = true → eventTable e ≠ t := by
  constructor
  · simp [processTable, h]
  · induction ts with
    | nil => intro e he; simp [process_action] at he
    | cons u us ih =>
      intro e he hdb
      cases hr : (processTable env u).2 with
      | some err =>
        rw [process_action_cons_error env u us err hr] at he
        exact processTable_skipfile_no_dbop env t u h e he hdb
      | none =>
        rw [process_action_cons_ok env u us hr] at he
        rcases List.mem_append.mp he with he | he
        · exact processTable_skipfile_no_dbop env t u h e he hdb
        · exact ih e he hdb

theorem skip_missing_file_witness :
    envNoFiles.file_exists "logs" = false ∧
      processTable envNoFiles "logs" =
        ([Event.infoRestoring "logs", Event.skipFileMissing "logs"], Option.none) ∧
      ∀ e ∈ (process_action envNoFiles ["logs", "users"]).1,
        isDbOp e = true → eventTable e ≠ "logs" :=
  ⟨rfl, (skip_missing_file envNoFiles ["logs", "users"] "logs" rfl).1,
   (skip_missing_file envNoFiles ["logs", "users"] "logs" rfl).2⟩

/-- C10, counterexample: the reconciled first row has key sequence
`["b", "a"]`, the second row has key sequence `["a", "b"]` — not equal —
yet its positional parameters (its values in its own key order) still
align with the named columns, because both its values are `1`.  The
claim's "exactly when (and only when)" is refuted: alignment can hold
coincidentally when the key sequences differ. -/
theorem params_align_only_when_cex :
    compare_content ["a", "b"]
        [[("b", PyValue.intv 9), ("a", PyValue.intv 8)],
         [("a", PyValue.intv 1), ("b", PyValue.intv 1)]] =
      some [[("b", PyValue.intv 9), ("a", PyValue.intv 8)],
            [("a", PyValue.intv 1), ("b", PyValue.intv 1)]] ∧
      get_keys [[("b", PyValue.intv 9), ("a", PyValue.intv 8)],
        [("a", PyValue.intv 1), ("b", PyValue.intv 1)]] true = ["b", "a"] ∧
      aligned ["b", "a"] [("a", PyValue.intv 1), ("b", PyValue.intv 1)] = true ∧
      keysOf [("a", PyValue.intv 1), ("b", PyValue.intv 1)] ≠ ["b", "a"] := by
  refine ⟨by decide, by decide, by decide, by decide⟩

/-- C10, amended: each row's positional parameter tuple is
`list(row.values())` — the row's values in the row's own key order, never
reordered to match the reconciled field list (first conjunct: the insert
loop runs on exactly `content.map insertParams`).  Values therefore align
with the named columns whenever the row's key sequence equals the field
sequence used in the statement (second conjunct, for dict rows, whose
keys are distinct); when the sequences differ alignment is not
guaranteed — though it can still hold coincidentally, so "only when"
fails (see the counterexample). -/
theorem params_in_row_own_order (env : DbWorld) (t : TableName) (content : RowSet)
    (fields : List String) :
    insert_into_db env t content fields =
        (Event.dbSetFkChecks t ::
          (insertLoop env t (buildInsertQuery t fields) (content.map insertParams)).1,
          (insertLoop env t (buildInsertQuery t fields) (content.map insertParams)).2) ∧
      ∀ row : Row, (keysOf row).Nodup → aligned (keysOf row) row = true :=
  ⟨rfl, fun row hnd => aligned_of_key_order row hnd⟩

theorem params_in_row_own_order_witness :
    insert_into_db envRowErrors "t" [[("a", PyValue.intv 3)]] ["`a`"] =
        (Event.dbSetFkChecks "t" ::
          (insertLoop envRowErrors "t" (buildInsertQuery "t" ["`a`"])
            ([[("a", PyValue.intv 3)]].map insertParams)).1,
          (insertLoop envRowErrors "t" (buildInsertQuery "t" ["`a`"])
            ([[("a", PyValue.intv 3)]].map insertParams)).2) ∧
      aligned (keysOf [("a", PyValue.intv 3)]) [("a", PyValue.intv 3)] = true :=
  ⟨(params_in_row_own_order envRowErrors "t" [[("a", PyValue.intv 3)]] ["`a`"]).1,
   (params_in_row_own_order envRowErrors "t" [[("a", PyValue.intv 3)]] ["`a`"]).2
     [("a", PyValue.intv 3)] (by decide)⟩

end BackupDb
